import Mathlib

/-!
Verification of the invoice-to-CSV extraction pipeline (`app.py`).

The development shallowly embeds the three core components of the program:

* `parse_header` — header-field extraction via independent pattern searches,
* `parse_lines`  — line-item extraction (region isolation, per-line
  classification into freight / full-item / short-item records),
* `to_craftybase_rows` — normalization of header + line items into the
  canonical 15-column export rows.

Python regular-expression searches are embedded as specialized matching
functions over `List Char`; every specialization is noted where backtracking
of the original pattern is provably unnecessary (adjacent character classes
are disjoint).  Python `float` values are modelled as exact rationals `ℚ`;
Python exceptions are modelled with `Except Unit`.
-/

set_option maxRecDepth 4096

/-! ### Character classes (ASCII fragment of Python `re`) -/

/-- Python `\s` (ASCII range): space, tab, newline, carriage return,
vertical tab, form feed. -/
def isPySpace (c : Char) : Bool :=
  c = ' ' || c = '\t' || c = '\n' || c = '\r' || c = '\x0b' || c = '\x0c'

/-- Python `\w` (ASCII range): letters, digits, underscore. -/
def isWordChar (c : Char) : Bool :=
  c.isAlphanum || c = '_'

/-- Character class `[A-Z0-9-]` (case-sensitive, as used without
`re.IGNORECASE`). -/
def isSkuChar (c : Char) : Bool :=
  ('A' ≤ c && c ≤ 'Z') || c.isDigit || c = '-'

/-- Character class `[0-9-]`. -/
def isNumDash (c : Char) : Bool :=
  c.isDigit || c = '-'

/-- Character class `[0-9.-]`. -/
def isNumDotDash (c : Char) : Bool :=
  c.isDigit || c = '.' || c = '-'

/-- Character class `[0-9,.]`. -/
def isNumCommaDot (c : Char) : Bool :=
  c.isDigit || c = ',' || c = '.'

/-- Character class `[A-Z0-9]` under `re.IGNORECASE` (letters of either
case, digits). -/
def isAlnumTrack (c : Char) : Bool :=
  c.isAlphanum

/-- Character class `[A-Z0-9]` without flags (upper-case letters, digits). -/
def isUpperDigit (c : Char) : Bool :=
  ('A' ≤ c && c ≤ 'Z') || c.isDigit

/-! ### Literal matching and leftmost search -/

/-- Match a case-sensitive literal pattern as a prefix of `l`; return the
rest on success. -/
def dropLit : List Char → List Char → Option (List Char)
  | [], l => some l
  | _ :: _, [] => none
  | p :: ps, c :: cs => if c = p then dropLit ps cs else none

/-- Match a literal pattern (given lower-cased) as a prefix of `l`, comparing
case-insensitively (`re.IGNORECASE`); return the rest on success. -/
def dropCI : List Char → List Char → Option (List Char)
  | [], l => some l
  | _ :: _, [] => none
  | p :: ps, c :: cs => if c.toLower = p then dropCI ps cs else none

/-- Leftmost search: try the matcher at every suffix of `l` (positions
`0 .. l.length`, as `re.search` does), returning the first success. -/
def searchPos (f : List Char → Option α) : List Char → Option α
  | [] => f []
  | c :: cs =>
    match f (c :: cs) with
    | some a => some a
    | none => searchPos f cs

/-- Leftmost search that also tracks the character immediately before the
current position (for `\b` word-boundary tests); `prev = none` at the start
of the text. -/
def searchPrev (f : Option Char → List Char → Option α) (prev : Option Char) :
    List Char → Option α
  | [] => f prev []
  | c :: cs =>
    match f prev (c :: cs) with
    | some a => some a
    | none => searchPrev f (some c) cs

/-- Lazy `.*?` (DOTALL) followed by the matcher `f`: skip the least number of
characters so that `f` succeeds; return the skipped characters and `f`'s
result. -/
def findLazy (f : List Char → Option α) : List Char → Option (List Char × α)
  | [] => (f []).map (fun a => ([], a))
  | c :: cs =>
    match f (c :: cs) with
    | some a => some ([], a)
    | none => (findLazy f cs).map (fun p => (c :: p.1, p.2))

/-! ### Python string helpers -/

/-- `str.strip()` restricted to the characters of Python `\s`. -/
def pyStrip (l : List Char) : List Char :=
  ((l.dropWhile isPySpace).reverse.dropWhile isPySpace).reverse

/-- Replace each maximal run of whitespace by a single space
(`re.sub(r"\s+", " ", ·)`); `inRun` records whether the previous character
was part of a whitespace run. -/
def collapseWs (inRun : Bool) : List Char → List Char
  | [] => []
  | c :: cs =>
    if isPySpace c then
      if inRun then collapseWs true cs else ' ' :: collapseWs true cs
    else c :: collapseWs false cs

/-- `clean` from the source: `re.sub(r"\s+", " ", s.strip())`. -/
def clean (s : String) : String :=
  String.mk (collapseWs false (pyStrip s.toList))

/-- `str.splitlines()` on the line terminators `\n`, `\r\n`, `\r`. -/
def splitLinesGo (acc : List Char) : List Char → List String
  | [] => if acc.isEmpty then [] else [String.mk acc.reverse]
  | '\n' :: cs => String.mk acc.reverse :: splitLinesGo [] cs
  | '\r' :: '\n' :: cs => String.mk acc.reverse :: splitLinesGo [] cs
  | '\r' :: cs => String.mk acc.reverse :: splitLinesGo [] cs
  | c :: cs => splitLinesGo (c :: acc) cs

/-- `str.splitlines()`. -/
def pySplitlines (s : String) : List String :=
  splitLinesGo [] s.toList

/-- `'freight' in name.lower()`-style substring test: does `needle` occur
contiguously in `hay`? -/
def startsWithL : List Char → List Char → Bool
  | [], _ => true
  | _ :: _, [] => false
  | a :: as, b :: bs => a = b && startsWithL as bs

/-- Substring containment (Python `in` on strings). -/
def hasSub (needle hay : List Char) : Bool :=
  (searchPos (fun l => if startsWithL needle l then some () else none) hay).isSome

/-! ### Python numbers as exact rationals -/

/-- Numeric value of a list of decimal digit characters. -/
def digitsNat (l : List Char) : Nat :=
  l.foldl (fun a c => a * 10 + (c.toNat - 48)) 0

/-- Exact rational addition, written through `mkRat` so that it evaluates
by kernel reduction (`Rat.add` is `@[irreducible]`); `qAdd_eq` below proves
it equal to `+`. -/
def qAdd (a b : ℚ) : ℚ :=
  mkRat (a.num * b.den + b.num * a.den) (a.den * b.den)

/-- Negation through `mkRat`, evaluable by kernel reduction; `qNeg_eq`
below proves it equal to `Neg.neg`. -/
def qNeg (q : ℚ) : ℚ :=
  mkRat (-q.num) q.den

/-- `float()` on a string made of digits, `.` and `-` (the only characters
our call sites can pass): an optional leading minus sign, then
`digits [. digits]` with at least one digit — the value
`ip + fp / 10 ^ |fp|`.  Returns `none` where Python raises `ValueError`. -/
def pyFloatCore (l : List Char) : Option ℚ :=
  let ip := l.takeWhile Char.isDigit
  let r1 := l.drop ip.length
  if r1.isEmpty then
    if ip.isEmpty then none else some (mkRat (digitsNat ip) 1)
  else if r1.head? = some '.' then
    let r2 := r1.tail
    let fp := r2.takeWhile Char.isDigit
    let r3 := r2.drop fp.length
    if r3.isEmpty then
      if ip.isEmpty && fp.isEmpty then none
      else some (mkRat (digitsNat ip * 10 ^ fp.length + digitsNat fp) (10 ^ fp.length))
    else none
  else none

/-- `float()` with the optional leading sign. -/
def pyFloatL : List Char → Option ℚ
  | [] => none
  | c :: r => if c = '-' then (pyFloatCore r).map qNeg else pyFloatCore (c :: r)

/-- Python `float(s)` (restricted to the character sets reachable in the
program), as an exact rational. -/
def pyFloat (s : String) : Option ℚ :=
  pyFloatL s.toList

/-- `s.replace(',', '')`. -/
def stripCommas (s : String) : String :=
  String.mk (s.toList.filter (fun c => c ≠ ','))

/-- Python truthiness-based default `x or d` for numbers (`0` is falsy). -/
def pyOr (x d : ℚ) : ℚ :=
  if x = 0 then d else x

/-- Python `int()` on a float value: truncation toward zero. -/
def pyTrunc (q : ℚ) : ℤ :=
  q.num.tdiv q.den

/-- Round the exact value `a / b` (with `b > 0`) to the nearest integer,
half to even (Python `round` on an exact value): `f` is the floor and
`r2 = 2 * b * (a/b - f)` compares the doubled fractional part with `1`. -/
def roundHalfEven (a b : ℤ) : ℤ :=
  let f := a.fdiv b
  let r2 := 2 * (a - f * b)
  if r2 < b then f
  else if b < r2 then f + 1
  else if f % 2 = 0 then f else f + 1

/-- Python `round(x, 2)` on an exact value: round `100 * x` half to even,
then divide by `100`. -/
def pyRound2 (q : ℚ) : ℚ :=
  mkRat (roundHalfEven (q.num * 100) q.den) 100

/-! ### Header extraction (`parse_header`)

Each of the five fields is found by an independent leftmost regex search.
Within every pattern all adjacent sub-patterns draw from disjoint character
sets, so the greedy `\s*` / class-`+` pieces need no backtracking and are
embedded as `dropWhile` / `takeWhile`. -/

/-- `Reference No\.\s*([A-Z0-9-]+)` tried at one position. -/
def refAt (l : List Char) : Option String :=
  match dropLit "Reference No.".toList l with
  | none => none
  | some r =>
    let cap := (r.dropWhile isPySpace).takeWhile isSkuChar
    if cap.isEmpty then none else some (String.mk cap)

/-- `\d{1,2}/` with the greedy two-digit attempt first. -/
def d12Slash (l : List Char) : Option (List Char × List Char) :=
  match l with
  | a :: b :: '/' :: r =>
    if a.isDigit && b.isDigit then some ([a, b, '/'], r)
    else if a.isDigit && b = '/' then some ([a, '/'], '/' :: r)
    else none
  | a :: '/' :: r => if a.isDigit then some ([a, '/'], r) else none
  | _ => none

/-- `\d{4}`. -/
def d4 (l : List Char) : Option (List Char × List Char) :=
  match l with
  | a :: b :: c :: d :: r =>
    if a.isDigit && b.isDigit && c.isDigit && d.isDigit then
      some ([a, b, c, d], r)
    else none
  | _ => none

/-- `\bDate:\s*(\d{1,2}/\d{1,2}/\d{4})` tried at one position, given the
preceding character for the `\b` test. -/
def dateAt (prev : Option Char) (l : List Char) : Option String :=
  let boundary := match prev with
    | none => true
    | some c => !isWordChar c
  if boundary then
    match dropLit "Date:".toList l with
    | none => none
    | some r => do
      let (x1, r1) ← d12Slash (r.dropWhile isPySpace)
      let (x2, r2) ← d12Slash r1
      let (x3, _) ← d4 r2
      some (String.mk (x1 ++ x2 ++ x3))
  else none

/-- `SO\s*NUMBER\s*([0-9-]+)` (IGNORECASE) tried at one position. -/
def soAt (l : List Char) : Option String :=
  match dropCI "so".toList l with
  | none => none
  | some r =>
    match dropCI "number".toList (r.dropWhile isPySpace) with
    | none => none
    | some r2 =>
      let cap := (r2.dropWhile isPySpace).takeWhile isNumDash
      if cap.isEmpty then none else some (String.mk cap)

/-- `Shipment Number\s*([0-9-]+)` (IGNORECASE) tried at one position. -/
def shipmentAt (l : List Char) : Option String :=
  match dropCI "shipment number".toList l with
  | none => none
  | some r =>
    let cap := (r.dropWhile isPySpace).takeWhile isNumDash
    if cap.isEmpty then none else some (String.mk cap)

/-- `Tracking\s*#\s*([A-Z0-9]+)` (IGNORECASE) tried at one position. -/
def trackAt (l : List Char) : Option String :=
  match dropCI "tracking".toList l with
  | none => none
  | some r =>
    match r.dropWhile isPySpace with
    | '#' :: r2 =>
      let cap := (r2.dropWhile isPySpace).takeWhile isAlnumTrack
      if cap.isEmpty then none else some (String.mk cap)
    | _ => none

/-- `TRACKING NUMBER\s*\n([A-Z0-9]+)` (no flags) tried at one position.
`\s*\n` succeeds exactly when the whitespace run after the literal is
nonempty and ends with `\n` (backtracking the greedy `\s*` to any earlier
newline leaves a whitespace character where the capture class must match). -/
def trackNlAt (l : List Char) : Option String :=
  match dropLit "TRACKING NUMBER".toList l with
  | none => none
  | some r =>
    let run := r.takeWhile isPySpace
    if run.isEmpty then none
    else if run.getLast? = some '\n' then
      let cap := (r.drop run.length).takeWhile isUpperDigit
      if cap.isEmpty then none else some (String.mk cap)
    else none

/-- `re.search(r"Reference No\.\s*([A-Z0-9-]+)", text)`. -/
def findInvoiceNo (text : String) : Option String :=
  searchPos refAt text.toList

/-- `re.search(r"\bDate:\s*(\d{1,2}/\d{1,2}/\d{4})", text)`. -/
def findDate (text : String) : Option String :=
  searchPrev dateAt none text.toList

/-- `re.search(r"SO\s*NUMBER\s*([0-9-]+)", text, re.IGNORECASE)`. -/
def findSo (text : String) : Option String :=
  searchPos soAt text.toList

/-- `re.search(r"Shipment Number\s*([0-9-]+)", text, re.IGNORECASE)`. -/
def findShipment (text : String) : Option String :=
  searchPos shipmentAt text.toList

/-- `re.search(r"Tracking\s*#\s*([A-Z0-9]+)", text, re.IGNORECASE)`. -/
def findTrackA (text : String) : Option String :=
  searchPos trackAt text.toList

/-- `re.search(r"TRACKING NUMBER\s*\n([A-Z0-9]+)", text)`. -/
def findTrackB (text : String) : Option String :=
  searchPos trackNlAt text.toList

/-- The header record built by `parse_header`; every field is optional and
absent exactly when its search failed. -/
structure HeaderRecord where
  invoice_no : Option String
  purchase_date : Option String
  so_number : Option String
  shipment_number : Option String
  tracking : Option String
deriving DecidableEq, Repr

/-- `parse_header` from the source: five independent searches, the tracking
field falling back to the second pattern when the first finds nothing. -/
def parse_header (text : String) : HeaderRecord :=
  { invoice_no := findInvoiceNo text
    purchase_date := findDate text
    so_number := findSo text
    shipment_number := findShipment text
    tracking :=
      match findTrackA text with
      | some v => some v
      | none => findTrackB text }

/-! ### Line-item extraction (`parse_lines`) -/

/-- `AMOUNT\n` (IGNORECASE on the literal) tried at one position. -/
def amountNl (l : List Char) : Option (List Char) :=
  match dropCI "amount".toList l with
  | none => none
  | some r =>
    match r with
    | '\n' :: r2 => some r2
    | _ => none

/-- One of the terminal markers `THANK YOU | Sales Total | Freight Total`
(IGNORECASE) as a prefix. -/
def terminatorAt (l : List Char) : Bool :=
  (dropCI "thank you".toList l).isSome ||
    (dropCI "sales total".toList l).isSome ||
    (dropCI "freight total".toList l).isSome

/-- `\n(?:THANK YOU|Sales Total|Freight Total)` tried at one position. -/
def nlTerminator (l : List Char) : Option Unit :=
  match l with
  | '\n' :: r => if terminatorAt r then some () else none
  | _ => none

/-- After `NO\.\s*ITEM` has matched: `.*?AMOUNT\n(.*?)\n(?:…)` with both
dots lazy (DOTALL).  The outer lazy dot backtracks through every later
`AMOUNT\n` occurrence when the inner search fails, which the position scan
reproduces. -/
def tableTail : List Char → Option (List Char)
  | [] =>
    match amountNl [] with
    | some r => (findLazy nlTerminator r).map Prod.fst
    | none => none
  | c :: cs =>
    match
      match amountNl (c :: cs) with
      | some r => (findLazy nlTerminator r).map Prod.fst
      | none => none
    with
    | some cap => some cap
    | none => tableTail cs

/-- `NO\.\s*ITEM.*?AMOUNT\n(.*?)\n(?:THANK YOU|Sales Total|Freight Total)`
(DOTALL, IGNORECASE) tried at one position. -/
def tableAt (l : List Char) : Option (List Char) :=
  match dropCI "no.".toList l with
  | none => none
  | some r =>
    match dropCI "item".toList (r.dropWhile isPySpace) with
    | none => none
    | some r2 => tableTail r2

/-- The bounded table region: group 1 of the search above, or `none` when
the pattern does not match anywhere. -/
def findTable (text : String) : Option String :=
  (searchPos tableAt text.toList).map String.mk

/-- `^(NO\.|ITEM|EACH\s+ORDERED|SHIP VIA|SO TYPE)` (IGNORECASE): table
chrome recognizer, anchored at the start of the cleaned line. -/
def isChrome (s : String) : Bool :=
  let l := s.toList
  (dropCI "no.".toList l).isSome ||
    (dropCI "item".toList l).isSome ||
    (match dropCI "each".toList l with
     | some r =>
       let run := r.takeWhile isPySpace
       !run.isEmpty && (dropCI "ordered".toList (r.drop run.length)).isSome
     | none => false) ||
    (dropCI "ship via".toList l).isSome ||
    (dropCI "so type".toList l).isSome

/-- `\bFreight\b` (IGNORECASE) tried at one position, given the preceding
character for the left word boundary. -/
def freightAt (prev : Option Char) (l : List Char) : Option Unit :=
  let leftOk := match prev with
    | none => true
    | some c => !isWordChar c
  if leftOk then
    match dropCI "freight".toList l with
    | none => none
    | some r =>
      match r with
      | [] => some ()
      | c :: _ => if isWordChar c then none else some ()
  else none

/-- `re.search(r"\bFreight\b", s, re.IGNORECASE)` as a Bool. -/
def hasFreightWord (s : String) : Bool :=
  (searchPrev freightAt none s.toList).isSome

/-- `([0-9]+\.[0-9]{2})\s*$` tried at one position.  The greedy `[0-9]+`
never backtracks (shrinking it leaves a digit where `\.` must match), and
`\s*$` holds exactly when the remainder is all whitespace. -/
def trailAt (l : List Char) : Option String :=
  let ds := l.takeWhile Char.isDigit
  if ds.isEmpty then none
  else
    match l.drop ds.length with
    | '.' :: a :: b :: r2 =>
      if a.isDigit && b.isDigit && r2.all isPySpace then
        some (String.mk (ds ++ '.' :: a :: b :: []))
      else none
    | _ => none

/-- `re.search(r"([0-9]+\.[0-9]{2})\s*$", s)`: the trailing decimal amount
of a freight line. -/
def trailAmount (s : String) : Option String :=
  searchPos trailAt s.toList

/-- The seven capture groups of the full-item pattern. -/
structure FullGroups where
  g1 : String
  g2 : String
  g3 : String
  g4 : String
  g5 : String
  g6 : String
  g7 : String
deriving DecidableEq, Repr

/-- The numeric tail `\s+EACH\s+([0-9.-]+)\s+([0-9.-]+)\s+([0-9.-]+)\s+
([0-9,.]+)\s+([0-9,.]+)$` of the full-item pattern, tried at one position
(the candidate end of the lazy description group).  Every `\s+` separates
two character classes disjoint from whitespace, so greedy `takeWhile` needs
no backtracking; `$` (no MULTILINE) accepts the end of the string or a
single final newline. -/
def fullTail (l : List Char) : Option (String × String × String × String × String) :=
  let w0 := l.takeWhile isPySpace
  if w0.isEmpty then none
  else
    match dropLit "EACH".toList (l.drop w0.length) with
    | none => none
    | some t0 =>
      let w1 := t0.takeWhile isPySpace
      if w1.isEmpty then none
      else
        let t1 := t0.drop w1.length
        let a3 := t1.takeWhile isNumDotDash
        let t2 := t1.drop a3.length
        let w2 := t2.takeWhile isPySpace
        if a3.isEmpty || w2.isEmpty then none
        else
          let t3 := t2.drop w2.length
          let a4 := t3.takeWhile isNumDotDash
          let t4 := t3.drop a4.length
          let w3 := t4.takeWhile isPySpace
          if a4.isEmpty || w3.isEmpty then none
          else
            let t5 := t4.drop w3.length
            let a5 := t5.takeWhile isNumDotDash
            let t6 := t5.drop a5.length
            let w4 := t6.takeWhile isPySpace
            if a5.isEmpty || w4.isEmpty then none
            else
              let t7 := t6.drop w4.length
              let a6 := t7.takeWhile isNumCommaDot
              let t8 := t7.drop a6.length
              let w5 := t8.takeWhile isPySpace
              if a6.isEmpty || w5.isEmpty then none
              else
                let t9 := t8.drop w5.length
                let a7 := t9.takeWhile isNumCommaDot
                let t10 := t9.drop a7.length
                if a7.isEmpty then none
                else if t10 = [] || t10 = ['\n'] then
                  some (String.mk a3, String.mk a4, String.mk a5,
                    String.mk a6, String.mk a7)
                else none

/-- The lazy description group `(.*?)` of the full-item pattern: grow the
description one character at a time (never across `\n`, since `.` is not
DOTALL here), retrying the tail matcher at each length. -/
def descLoop (tail : List Char → Option α) (acc : List Char) :
    List Char → Option (List Char × α)
  | [] =>
    match tail [] with
    | some a => some (acc.reverse, a)
    | none => none
  | c :: cs =>
    match tail (c :: cs) with
    | some a => some (acc.reverse, a)
    | none => if c = '\n' then none else descLoop tail (c :: acc) cs

/-- Shared prefix `^\d+\s+([A-Z0-9-]+):?\s+` of the two item patterns.
Greedy pieces need no backtracking: each is followed by a disjoint class,
and when `:?` consumes no colon the following `\s+` cannot match a colon
either.  The final `\s+` (which precedes the lazy `(.*?)` in both patterns)
could in general give characters back to a lazy dot, but both matchers are
only ever applied to `clean`ed lines, where every whitespace run has length
exactly one, so the give-back branch (reachable only from runs of length
at least two) is vacuous and the run is consumed greedily. -/
def itemHead (l : List Char) : Option (String × List Char) :=
  let ds := l.takeWhile Char.isDigit
  if ds.isEmpty then none
  else
    let r0 := l.drop ds.length
    let w0 := r0.takeWhile isPySpace
    if w0.isEmpty then none
    else
      let r1 := r0.drop w0.length
      let sku := r1.takeWhile isSkuChar
      if sku.isEmpty then none
      else
        let r2 := r1.drop sku.length
        let r3 := match r2 with
          | ':' :: t => t
          | _ => r2
        let w1 := r3.takeWhile isPySpace
        if w1.isEmpty then none
        else some (String.mk sku, r3.drop w1.length)

/-- `re.search(r"^\d+\s+([A-Z0-9-]+):?\s+(.*?)\s+EACH\s+([0-9.-]+)\s+
([0-9.-]+)\s+([0-9.-]+)\s+([0-9,.]+)\s+([0-9,.]+)$", s)`: the full-item
pattern (anchored at both ends, so only position 0 is tried). -/
def matchFull (s : String) : Option FullGroups :=
  match itemHead s.toList with
  | none => none
  | some (sku, r) =>
    match descLoop fullTail [] r with
    | none => none
    | some (desc, (a3, a4, a5, a6, a7)) =>
      some ⟨sku, String.mk desc, a3, a4, a5, a6, a7⟩

/-- The numeric tail `\s+([0-9,.]+)\s+([0-9,.]+)$` of the short-item
pattern, tried at one position. -/
def shortTail (l : List Char) : Option (String × String) :=
  let w0 := l.takeWhile isPySpace
  if w0.isEmpty then none
  else
    let t0 := l.drop w0.length
    let a3 := t0.takeWhile isNumCommaDot
    let t1 := t0.drop a3.length
    let w1 := t1.takeWhile isPySpace
    if a3.isEmpty || w1.isEmpty then none
    else
      let t2 := t1.drop w1.length
      let a4 := t2.takeWhile isNumCommaDot
      let t3 := t2.drop a4.length
      if a4.isEmpty then none
      else if t3 = [] || t3 = ['\n'] then some (String.mk a3, String.mk a4)
      else none

/-- `re.search(r"^\d+\s+([A-Z0-9-]+):?\s+(.*?)\s+([0-9,.]+)\s+([0-9,.]+)$", s)`:
the short-item fallback pattern. -/
def matchShort (s : String) : Option (String × String × String × String) :=
  match itemHead s.toList with
  | none => none
  | some (sku, r) =>
    match descLoop shortTail [] r with
    | none => none
    | some (desc, (unit, amount)) => some (sku, String.mk desc, unit, amount)

/-- One parsed invoice line item, exactly the dictionary appended by
`parse_lines`. -/
structure LineItem where
  sku : String
  name : String
  qty : ℚ
  price_subtotal : ℚ
  shipping : ℚ
deriving DecidableEq, Repr

/-- The items contributed by one raw line of the scanned block, mirroring
the loop body of `parse_lines`; `.error ()` models an uncaught Python
exception (a `float()` call outside any `try`). -/
def lineItems (raw : String) : Except Unit (List LineItem) :=
  let s := clean raw
  if s = "" then .ok []
  else if isChrome s then .ok []
  else if hasFreightWord s then
    match trailAmount s with
    | some cap =>
      match pyFloat cap with
      | some v => .ok [⟨"", "Freight - UPS Ground", 1, 0, v⟩]
      | none => .error ()
    | none => .ok [⟨"", "Freight - UPS Ground", 1, 0, 0⟩]
  else
    match matchFull s with
    | some g =>
      let qtyv : Except Unit ℚ :=
        if g.g3 = "" then .ok 1
        else match pyFloat g.g3 with
          | some q => .ok q
          | none => .error ()
      let amtv : Except Unit ℚ :=
        if g.g7 = "" then .ok 0
        else match pyFloat (stripCommas g.g7) with
          | some a => .ok a
          | none => .error ()
      match qtyv, amtv with
      | .ok q, .ok a => .ok [⟨g.g1, g.g2, q, a, 0⟩]
      | .error e, _ => .error e
      | _, .error e => .error e
    | none =>
      match matchShort s with
      | some (sku, desc, _unit, amount) =>
        .ok [⟨sku, desc, 1, ((pyFloat (stripCommas amount)).getD 0), 0⟩]
      | none => .ok []

/-- Fold the per-line step over the lines of the scanned block,
short-circuiting on the first exception (Python raises out of the loop). -/
def linesGo : List String → Except Unit (List LineItem)
  | [] => .ok []
  | r :: rs => do
    let xs ← lineItems r
    let ys ← linesGo rs
    .ok (xs ++ ys)

/-- `parse_lines` from the source: isolate the table region (falling back to
the whole text) and classify each of its physical lines. -/
def parse_lines (text : String) : Except Unit (List LineItem) :=
  let block := (findTable text).getD text
  linesGo (pySplitlines block)

/-! ### Row normalization (`to_craftybase_rows`) -/

/-- The fixed vendor constant. -/
def VENDOR_NAME : String := "Grand Brass Lamp Parts, LLC."

/-- One canonical export row (the 15-column schema, `source_file` excluded
as it is added by the UI caller). -/
structure ExportRow where
  purchase_date : Option String
  code : Option String
  material_sku : String
  material_name : String
  vendor : String
  lot_number : String
  notes : Option String
  line_item_quantity : ℤ
  line_item_category_id : String
  line_item_price : ℚ
  tax : ℚ
  shipping : ℚ
  discount : ℚ
  grand_total : ℚ
  paid : String
deriving DecidableEq, Repr

/-- Python truthiness of an optional string (`None` and `""` are falsy). -/
def truthy (o : Option String) : Bool :=
  match o with
  | none => false
  | some s => s ≠ ""

/-- The shared `notes` value: present header sub-fields joined with `" • "`,
in the fixed order SO number, shipment number, tracking; `none` when no
sub-field is present. -/
def mkNotes (meta : HeaderRecord) : Option String :=
  let parts :=
    (if truthy meta.so_number then ["SO " ++ meta.so_number.getD ""] else []) ++
    (if truthy meta.shipment_number then
      ["Shipment " ++ meta.shipment_number.getD ""] else []) ++
    (if truthy meta.tracking then ["Tracking " ++ meta.tracking.getD ""] else [])
  if parts.isEmpty then none else some (String.intercalate " • " parts)

/-- The loop body of `to_craftybase_rows`: one export row per line item. -/
def buildRow (meta : HeaderRecord) (notes : Option String) (it : LineItem) :
    ExportRow :=
  let is_freight := it.sku = "" && hasSub "freight".toList it.name.toLower.toList
  { purchase_date := meta.purchase_date
    code := meta.invoice_no
    material_sku := it.sku
    material_name := it.name
    vendor := VENDOR_NAME
    lot_number := ""
    notes := notes
    line_item_quantity := pyTrunc (pyOr it.qty 1)
    line_item_category_id := if is_freight then "Shipping" else "Materials"
    line_item_price := if is_freight then 0 else pyRound2 (pyOr it.price_subtotal 0)
    tax := 0
    shipping := pyRound2 (pyOr it.shipping 0)
    discount := 0
    grand_total := pyRound2 (qAdd (pyOr it.price_subtotal 0) (pyOr it.shipping 0))
    paid := "Y" }

/-- `to_craftybase_rows` from the source (the row list; the DataFrame is
just this list with the fixed column order). -/
def to_craftybase_rows (meta : HeaderRecord) (items : List LineItem) :
    List ExportRow :=
  items.map (buildRow meta (mkNotes meta))

/-! ### Basic lemmas about the numeric model -/

theorem qAdd_eq (a b : ℚ) : qAdd a b = a + b := by
  have ha : ((a.den : ℚ)) ≠ 0 := Nat.cast_ne_zero.mpr a.den_nz
  have hb : ((b.den : ℚ)) ≠ 0 := Nat.cast_ne_zero.mpr b.den_nz
  conv_rhs => rw [← Rat.num_div_den a, ← Rat.num_div_den b]
  rw [div_add_div _ _ ha hb, qAdd, Rat.mkRat_eq_div]
  push_cast
  ring_nf

theorem qNeg_eq (q : ℚ) : qNeg q = -q := by
  rw [qNeg, Rat.mkRat_eq_div]
  push_cast
  rw [neg_div, Rat.num_div_den]

theorem pyOr_zero (x : ℚ) : pyOr x 0 = x := by
  unfold pyOr
  split <;> simp_all

deriving instance DecidableEq for Except

/-! ### Claim C1 — the concrete full-item table line -/

/-- C1, counterexample: on the table line
`"12 BR-100: Brass Collar EACH 2.50 2.50 0.00 3 7.50"` the extractor does
NOT return a LineItem with quantity `3`: the quantity is taken from capture
group 3 of the full-item pattern, which is the first numeric column after
`EACH` (here `2.50`), not the sixth column (`3`). -/
theorem c1_counterexample :
    parse_lines "12 BR-100: Brass Collar EACH 2.50 2.50 0.00 3 7.50" ≠
      .ok [⟨"BR-100", "Brass Collar", 3, mkRat 15 2, 0⟩] := by decide

/-- C1, amended: the table line
`"12 BR-100: Brass Collar EACH 2.50 2.50 0.00 3 7.50"` yields exactly one
LineItem `{sku "BR-100", name "Brass Collar", qty 2.5, price_subtotal 7.50,
shipping 0.0}` (the quantity comes from group 3, the `EACH` column). -/
theorem c1_full_line :
    parse_lines "12 BR-100: Brass Collar EACH 2.50 2.50 0.00 3 7.50" =
      .ok [⟨"BR-100", "Brass Collar", mkRat 5 2, mkRat 15 2, 0⟩] := by decide

/-! ### Claim C7 — fallback to the whole text -/

/-- C7: when the bounded table region is not found, `parse_lines` applies
the per-line classification to every physical line of the whole document
text (no error, no unconditionally empty result). -/
theorem c7_fallback_whole_text (text : String) (h : findTable text = none) :
    parse_lines text = linesGo (pySplitlines text) := by
  unfold parse_lines
  rw [h]
  rfl

/-- C7 witness at the concrete region-free text `"hello"`. -/
theorem c7_fallback_whole_text_witness :
    findTable "hello" = none ∧
      parse_lines "hello" = linesGo (pySplitlines "hello") :=
  ⟨by decide, c7_fallback_whole_text "hello" (by decide)⟩

/-! ### Claims C9/C10 — quantity normalization -/

/-- C9: a LineItem with a non-integer quantity is normalized by truncation
toward zero (`int(qty)`), not rounding. -/
theorem c9_quantity_truncates (meta : HeaderRecord) (notes : Option String)
    (it : LineItem) (h : it.qty.den ≠ 1) :
    (buildRow meta notes it).line_item_quantity = pyTrunc it.qty := by
  have hq : it.qty ≠ 0 := by
    intro h0
    exact h (h0 ▸ rfl)
  show pyTrunc (pyOr it.qty 1) = pyTrunc it.qty
  rw [pyOr, if_neg hq]

/-- C9 witness: quantity `2.7 = 27/10` normalizes to `2`. -/
theorem c9_quantity_truncates_witness :
    (mkRat 27 10).den ≠ 1 ∧
      (buildRow ⟨none, none, none, none, none⟩ none
          ⟨"X", "Y", mkRat 27 10, 0, 0⟩).line_item_quantity = 2 :=
  ⟨by decide,
    (c9_quantity_truncates ⟨none, none, none, none, none⟩ none
        ⟨"X", "Y", mkRat 27 10, 0, 0⟩ (by decide)).trans (by decide)⟩

/-- C10: a LineItem whose quantity is `0` gets `line_item_quantity = 1`:
`it.get('qty') or 1` substitutes the default `1` for the falsy `0` before
`int()` is applied. -/
theorem c10_zero_qty_defaults_to_one (meta : HeaderRecord)
    (notes : Option String) (it : LineItem) (h : it.qty = 0) :
    (buildRow meta notes it).line_item_quantity = 1 := by
  show pyTrunc (pyOr it.qty 1) = 1
  rw [pyOr, if_pos h]
  decide

/-- C10 witness at a concrete zero-quantity item. -/
theorem c10_zero_qty_witness :
    (buildRow ⟨none, none, none, none, none⟩ none
        ⟨"A", "B", 0, mkRat 5 2, 0⟩).line_item_quantity = 1 :=
  c10_zero_qty_defaults_to_one ⟨none, none, none, none, none⟩ none
    ⟨"A", "B", 0, mkRat 5 2, 0⟩ rfl

/-! ### Claim C4 — grand total -/

/-- C4: in every generated row, `grand_total` is
`round(price_subtotal + shipping, 2)` computed from the source LineItem's
raw (unrounded) values. -/
theorem c4_grand_total (meta : HeaderRecord) (items : List LineItem) :
    (to_craftybase_rows meta items).map (fun r => r.grand_total) =
      items.map (fun it => pyRound2 (it.price_subtotal + it.shipping)) := by
  unfold to_craftybase_rows
  rw [List.map_map]
  induction items with
  | nil => rfl
  | cons it rest ih =>
    simp only [List.map_cons, ih]
    congr 1
    show pyRound2 (qAdd (pyOr it.price_subtotal 0) (pyOr it.shipping 0)) = _
    rw [qAdd_eq, pyOr_zero, pyOr_zero]

/-! ### Claim C6 — freight classification in the normalizer -/

/-- The freight predicate of the normalizer, spelled as a proposition. -/
def IsFreightItem (it : LineItem) : Prop :=
  it.sku = "" ∧ hasSub "freight".toList it.name.toLower.toList = true

instance (it : LineItem) : Decidable (IsFreightItem it) :=
  inferInstanceAs (Decidable (_ ∧ _))

theorem buildRow_category (meta : HeaderRecord) (notes : Option String)
    (it : LineItem) :
    (buildRow meta notes it).line_item_category_id =
      if IsFreightItem it then "Shipping" else "Materials" := by
  have key : ((decide (it.sku = "") &&
      hasSub "freight".toList it.name.toLower.toList) = true) ↔
      IsFreightItem it := by
    simp [IsFreightItem, Bool.and_eq_true]
  exact if_congr key rfl rfl

theorem buildRow_price (meta : HeaderRecord) (notes : Option String)
    (it : LineItem) :
    (buildRow meta notes it).line_item_price =
      if IsFreightItem it then 0 else pyRound2 it.price_subtotal := by
  have key : ((decide (it.sku = "") &&
      hasSub "freight".toList it.name.toLower.toList) = true) ↔
      IsFreightItem it := by
    simp [IsFreightItem, Bool.and_eq_true]
  show (if (decide (it.sku = "") &&
      hasSub "freight".toList it.name.toLower.toList) = true then (0 : ℚ)
    else pyRound2 (pyOr it.price_subtotal 0)) = _
  rw [pyOr_zero]
  exact if_congr key rfl rfl

theorem buildRow_shipping (meta : HeaderRecord) (notes : Option String)
    (it : LineItem) :
    (buildRow meta notes it).shipping = pyRound2 it.shipping := by
  show pyRound2 (pyOr it.shipping 0) = _
  rw [pyOr_zero]

/-- C6: each row's category is `"Shipping"` precisely when the item's SKU
is empty and its name contains `"freight"` case-insensitively (else
`"Materials"`); freight rows get `line_item_price = 0` even when
`price_subtotal` is nonzero; and every row's `shipping` comes from the
item's `shipping` value regardless of category. -/
theorem c6_freight_classification (meta : HeaderRecord)
    (items : List LineItem) :
    (to_craftybase_rows meta items).map (fun r => r.line_item_category_id) =
        items.map (fun it =>
          if IsFreightItem it then "Shipping" else "Materials") ∧
      (to_craftybase_rows meta items).map (fun r => r.line_item_price) =
        items.map (fun it =>
          if IsFreightItem it then 0 else pyRound2 it.price_subtotal) ∧
      (to_craftybase_rows meta items).map (fun r => r.shipping) =
        items.map (fun it => pyRound2 it.shipping) := by
  unfold to_craftybase_rows
  refine ⟨?_, ?_, ?_⟩ <;> rw [List.map_map] <;>
    induction items with
    | nil => rfl
    | cons it rest ih =>
      simp only [List.map_cons, ih, Function.comp_apply]
      congr 1
      first
        | exact buildRow_category meta (mkNotes meta) it
        | exact buildRow_price meta (mkNotes meta) it
        | exact buildRow_shipping meta (mkNotes meta) it

/-! ### Claim C8 — the price/shipping exclusivity invariant -/

theorem lineItems_item_inv (raw : String) (xs : List LineItem)
    (h : lineItems raw = .ok xs) (it : LineItem) (hit : it ∈ xs) :
    it.price_subtotal = 0 ∨ it.shipping = 0 := by
  unfold lineItems at h
  dsimp only at h
  repeat' split at h
  all_goals first
    | exact Except.noConfusion h
    | (injection h with h; subst h; simp at hit; try (subst hit; simp))

theorem linesGo_item_inv : ∀ (rs : List String) (xs : List LineItem),
    linesGo rs = .ok xs → ∀ it ∈ xs, it.price_subtotal = 0 ∨ it.shipping = 0 := by
  intro rs
  induction rs with
  | nil =>
    intro xs h it hit
    unfold linesGo at h
    injection h with h
    subst h
    simp at hit
  | cons r rest ih =>
    intro xs h it hit
    unfold linesGo at h
    cases h1 : lineItems r with
    | error e => rw [h1] at h; exact Except.noConfusion h
    | ok ys =>
      rw [h1] at h
      cases h2 : linesGo rest with
      | error e =>
        rw [h2] at h
        exact Except.noConfusion h
      | ok zs =>
        rw [h2] at h
        injection h with h
        subst h
        rcases List.mem_append.mp hit with hm | hm
        · exact lineItems_item_inv r ys h1 it hm
        · exact ih zs h2 it hm

/-- C8: every LineItem returned by the extractor has `price_subtotal = 0`
or `shipping = 0` — freight items carry only `shipping`, item lines carry
only `price_subtotal`. -/
theorem c8_price_shipping_exclusive (text : String) (l : List LineItem)
    (it : LineItem) (h : parse_lines text = .ok l) (hit : it ∈ l) :
    it.price_subtotal = 0 ∨ it.shipping = 0 := by
  unfold parse_lines at h
  exact linesGo_item_inv _ l h it hit

/-- C8 witness: the freight item extracted from a concrete one-line text. -/
theorem c8_price_shipping_exclusive_witness :
    (⟨"", "Freight - UPS Ground", 1, 0, mkRat 617 50⟩ : LineItem).price_subtotal = 0 ∨
      (⟨"", "Freight - UPS Ground", 1, 0, mkRat 617 50⟩ : LineItem).shipping = 0 :=
  c8_price_shipping_exclusive "UPS Ground Freight 12.34"
    [⟨"", "Freight - UPS Ground", 1, 0, mkRat 617 50⟩]
    ⟨"", "Freight - UPS Ground", 1, 0, mkRat 617 50⟩ (by decide) (by decide)

/-! ### Claim C5 — freight lines -/


theorem mem_takeWhile {p : Char → Bool} :
    ∀ (l : List Char) (c : Char), c ∈ l.takeWhile p → p c = true := by
  intro l
  induction l with
  | nil => intro c hc; simp at hc
  | cons a as ih =>
    intro c hc
    rw [List.takeWhile_cons] at hc
    by_cases hp : p a
    · rw [if_pos hp] at hc
      rcases List.mem_cons.mp hc with rfl | hc'
      · exact hp
      · exact ih c hc'
    · rw [if_neg hp] at hc
      simp at hc

theorem takeWhile_app (p : Char → Bool) (xs : List Char) (y : Char)
    (r : List Char) (hall : ∀ c ∈ xs, p c = true) (hy : p y = false) :
    (xs ++ y :: r).takeWhile p = xs := by
  induction xs with
  | nil => simp [List.takeWhile_cons, hy]
  | cons c cs ih =>
    rw [List.cons_append, List.takeWhile_cons_of_pos (hall c (by simp))]
    rw [ih (fun d hd => hall d (by simp [hd]))]

theorem pyFloat_digits_dot (ds : List Char) (a b : Char) (hds : ds ≠ [])
    (hall : ∀ c ∈ ds, c.isDigit = true) (ha : a.isDigit = true)
    (hb : b.isDigit = true) :
    ∃ v, pyFloat (String.mk (ds ++ '.' :: a :: b :: [])) = some v := by
  obtain ⟨d, ds', rfl⟩ := List.exists_cons_of_ne_nil hds
  have hd : d.isDigit = true := hall d (by simp)
  have hdne : d ≠ '-' := by
    intro e
    rw [e] at hd
    exact absurd hd (by decide)
  have hip : ((d :: ds') ++ '.' :: a :: b :: []).takeWhile Char.isDigit =
      d :: ds' :=
    takeWhile_app _ _ _ _ hall (by decide)
  have hdrop : ((d :: ds') ++ '.' :: a :: b :: []).drop (d :: ds').length =
      '.' :: a :: b :: [] := List.drop_left _ _
  show ∃ v, pyFloatL ((d :: ds') ++ '.' :: a :: b :: []) = some v
  rw [List.cons_append, pyFloatL, if_neg hdne, ← List.cons_append]
  unfold pyFloatCore
  rw [hip]
  dsimp only
  rw [hdrop]
  simp [List.takeWhile_cons, ha, hb]

theorem searchPos_some {α : Type} (f : List Char → Option α) :
    ∀ (l : List Char) (a : α), searchPos f l = some a → ∃ l', f l' = some a := by
  intro l
  induction l with
  | nil => intro a h; exact ⟨[], h⟩
  | cons c cs ih =>
    intro a h
    unfold searchPos at h
    cases hf : f (c :: cs) with
    | some b =>
      rw [hf] at h
      injection h with h
      subst h
      exact ⟨c :: cs, hf⟩
    | none =>
      rw [hf] at h
      exact ih a h

theorem trailAt_parses (l : List Char) (cap : String)
    (h : trailAt l = some cap) : ∃ v, pyFloat cap = some v := by
  unfold trailAt at h
  dsimp only at h
  repeat' split at h
  all_goals try exact Option.noConfusion h
  injection h with h
  subst h
  case _ x a b r2 heq hcond =>
    simp only [Bool.and_eq_true] at hcond
    have hne : l.takeWhile Char.isDigit ≠ [] := by
      intro e
      exact ‹¬(List.takeWhile Char.isDigit l).isEmpty = true› (by simp [e])
    exact pyFloat_digits_dot _ a b hne (fun c hc => mem_takeWhile _ c hc)
      hcond.1.1 hcond.1.2

theorem trailAmount_parses (s : String) (cap : String)
    (h : trailAmount s = some cap) : ∃ v, pyFloat cap = some v := by
  obtain ⟨l', hl'⟩ := searchPos_some trailAt s.toList cap h
  exact trailAt_parses l' cap hl'

/-- C5: every non-skipped normalized line containing the word `Freight`
(case-insensitively) yields exactly one LineItem with empty SKU, the fixed
name `"Freight - UPS Ground"`, quantity 1, zero subtotal, and `shipping`
equal to the trailing `digits.2-digits` amount of the line (or `0.0` when
no trailing amount is present). -/
theorem c5_freight_line (raw : String) (h1 : clean raw ≠ "")
    (h2 : isChrome (clean raw) = false)
    (h3 : hasFreightWord (clean raw) = true) :
    lineItems raw = .ok [⟨"", "Freight - UPS Ground", 1, 0,
      ((trailAmount (clean raw)).bind pyFloat).getD 0⟩] := by
  unfold lineItems
  dsimp only
  rw [if_neg h1, h2, h3]
  simp only [Bool.false_eq_true, if_false, if_pos]
  cases htr : trailAmount (clean raw) with
  | none => simp
  | some cap =>
    obtain ⟨v, hv⟩ := trailAmount_parses (clean raw) cap htr
    dsimp only
    rw [hv]
    simp [hv]

/-- C5 witness at the concrete line `"UPS Ground Freight 12.34"`. -/
theorem c5_witness :
    clean "UPS Ground Freight 12.34" ≠ "" ∧
      isChrome (clean "UPS Ground Freight 12.34") = false ∧
      hasFreightWord (clean "UPS Ground Freight 12.34") = true ∧
      lineItems "UPS Ground Freight 12.34" =
        .ok [⟨"", "Freight - UPS Ground", 1, 0, mkRat 617 50⟩] :=
  ⟨by decide, by decide, by decide,
    (c5_freight_line "UPS Ground Freight 12.34" (by decide) (by decide)
        (by decide)).trans (by decide)⟩

/-! ### Claim C2 — exceptions from the full-item numeric captures -/

/-- C2, counterexample: `parse_lines` is not total.  The line
`"1 A B EACH 1.2.3 1 1 1 1"` matches the full-item pattern with quantity
capture `"1.2.3"`, and `float("1.2.3")` — called outside any `try` —
raises, so the extractor propagates an exception instead of returning a
sequence. -/
theorem c2_counterexample :
    parse_lines "1 A B EACH 1.2.3 1 1 1 1" = .error () := by decide

/-- A raw line whose full-item match (if any) carries float-parseable
quantity and amount captures — the only way `parse_lines` can raise. -/
def goodLine (raw : String) : Bool :=
  match matchFull (clean raw) with
  | some g => (pyFloat g.g3).isSome && (pyFloat (stripCommas g.g7)).isSome
  | none => true

theorem lineItems_ok_of_goodLine (raw : String) (hg : goodLine raw = true) :
    ∃ xs, lineItems raw = .ok xs := by
  unfold goodLine at hg
  unfold lineItems
  dsimp only
  by_cases h1 : clean raw = ""
  · rw [if_pos h1]; exact ⟨_, rfl⟩
  rw [if_neg h1]
  by_cases hc : isChrome (clean raw) = true
  · rw [if_pos hc]; exact ⟨_, rfl⟩
  rw [if_neg hc]
  by_cases hf : hasFreightWord (clean raw) = true
  · rw [if_pos hf]
    cases htr : trailAmount (clean raw) with
    | none => exact ⟨_, rfl⟩
    | some cap =>
      obtain ⟨v, hv⟩ := trailAmount_parses (clean raw) cap htr
      dsimp only
      rw [hv]
      exact ⟨_, rfl⟩
  rw [if_neg hf]
  cases hm : matchFull (clean raw) with
  | some g =>
    rw [hm] at hg
    simp only [Bool.and_eq_true, Option.isSome_iff_exists] at hg
    obtain ⟨⟨q, hq⟩, a, ha⟩ := hg
    dsimp only
    by_cases h3 : g.g3 = ""
    · rw [if_pos h3]
      by_cases h7 : g.g7 = ""
      · rw [if_pos h7]; exact ⟨_, rfl⟩
      · rw [if_neg h7, ha]; exact ⟨_, rfl⟩
    · rw [if_neg h3, hq]
      by_cases h7 : g.g7 = ""
      · rw [if_pos h7]; exact ⟨_, rfl⟩
      · rw [if_neg h7, ha]; exact ⟨_, rfl⟩
  | none =>
    cases hs : matchShort (clean raw) with
    | some t =>
      obtain ⟨sku, desc, u, amt⟩ := t
      exact ⟨_, rfl⟩
    | none => exact ⟨_, rfl⟩

theorem linesGo_ok : ∀ (rs : List String),
    (∀ r ∈ rs, goodLine r = true) → ∃ xs, linesGo rs = .ok xs := by
  intro rs
  induction rs with
  | nil => intro _; exact ⟨[], rfl⟩
  | cons r rest ih =>
    intro hall
    obtain ⟨ys, hys⟩ := lineItems_ok_of_goodLine r (hall r (by simp))
    obtain ⟨zs, hzs⟩ := ih (fun r' hr' => hall r' (by simp [hr']))
    refine ⟨ys ++ zs, ?_⟩
    unfold linesGo
    rw [hys, hzs]
    rfl

/-- C2, amended: `parse_lines` returns a sequence (and never raises) for
every input whose full-item-matched lines carry float-parseable quantity
and amount captures; freight, short-item, chrome and unmatched lines never
raise (the short-item amount defaults to `0.0` on parse failure). -/
theorem c2_no_raise_when_numeric (text : String)
    (h : ∀ raw ∈ pySplitlines ((findTable text).getD text),
      goodLine raw = true) :
    ∃ l, parse_lines text = .ok l := by
  unfold parse_lines
  exact linesGo_ok _ h

/-- C2 witness on a concrete two-line text (one full item, one freight
line). -/
theorem c2_no_raise_witness :
    (∀ raw ∈ pySplitlines ((findTable
        "5 ABC: Widget EACH 1.00 1.00 0.00 2 2.00\nUPS Ground Freight 12.34").getD
        "5 ABC: Widget EACH 1.00 1.00 0.00 2 2.00\nUPS Ground Freight 12.34"),
      goodLine raw = true) ∧
      ∃ l, parse_lines
        "5 ABC: Widget EACH 1.00 1.00 0.00 2 2.00\nUPS Ground Freight 12.34" =
          .ok l :=
  ⟨by decide, c2_no_raise_when_numeric _ (by decide)⟩

/-! ### Claim C3 — header extraction: leftmost-match characterization -/

theorem searchPos_eq_iff {α : Type} (f : List Char → Option α) :
    ∀ (l : List Char) (a : α),
      searchPos f l = some a ↔
        ∃ n, n ≤ l.length ∧ f (l.drop n) = some a ∧
          ∀ m < n, f (l.drop m) = none := by
  intro l
  induction l with
  | nil =>
    intro a
    constructor
    · intro h
      exact ⟨0, Nat.le_refl 0, h, fun m hm => absurd hm (Nat.not_lt_zero m)⟩
    · rintro ⟨n, hn, hf, -⟩
      have h0 : n = 0 := Nat.le_zero.mp hn
      subst h0
      exact hf
  | cons c cs ih =>
    intro a
    unfold searchPos
    cases hf : f (c :: cs) with
    | some b =>
      dsimp only
      constructor
      · intro h
        injection h with h
        subst h
        exact ⟨0, Nat.zero_le _, hf, fun m hm => absurd hm (Nat.not_lt_zero m)⟩
      · rintro ⟨n, hn, hfn, hmin⟩
        cases n with
        | zero =>
          rw [List.drop_zero] at hfn
          rw [hf] at hfn
          exact hfn
        | succ k =>
          have h0 := hmin 0 (Nat.succ_pos k)
          rw [List.drop_zero, hf] at h0
          exact Option.noConfusion h0
    | none =>
      dsimp only
      constructor
      · intro h
        obtain ⟨k, hk, hfk, hmink⟩ := (ih a).mp h
        refine ⟨k + 1, Nat.succ_le_succ hk, ?_, ?_⟩
        · rw [List.drop_succ_cons]
          exact hfk
        · intro m hm
          cases m with
          | zero =>
            rw [List.drop_zero]
            exact hf
          | succ j =>
            rw [List.drop_succ_cons]
            exact hmink j (Nat.lt_of_succ_lt_succ hm)
      · rintro ⟨n, hn, hfn, hmin⟩
        cases n with
        | zero =>
          rw [List.drop_zero] at hfn
          rw [hf] at hfn
          exact Option.noConfusion hfn
        | succ k =>
          apply (ih a).mpr
          refine ⟨k, Nat.le_of_succ_le_succ hn, ?_, ?_⟩
          · rw [List.drop_succ_cons] at hfn
            exact hfn
          · intro m hm
            have h1 := hmin (m + 1) (Nat.succ_lt_succ hm)
            rw [List.drop_succ_cons] at h1
            exact h1

theorem searchPos_none_iff {α : Type} (f : List Char → Option α) :
    ∀ (l : List Char),
      searchPos f l = none ↔ ∀ n, f (l.drop n) = none := by
  intro l
  induction l with
  | nil =>
    constructor
    · intro h n
      rw [List.drop_nil]
      exact h
    · intro h
      exact h 0
  | cons c cs ih =>
    unfold searchPos
    cases hf : f (c :: cs) with
    | some b =>
      dsimp only
      constructor
      · intro h
        exact Option.noConfusion h
      · intro h
        have h0 := h 0
        rw [List.drop_zero, hf] at h0
        exact Option.noConfusion h0
    | none =>
      dsimp only
      rw [ih]
      constructor
      · intro h n
        cases n with
        | zero =>
          rw [List.drop_zero]
          exact hf
        | succ j =>
          rw [List.drop_succ_cons]
          exact h j
      · intro h n
        have h1 := h (n + 1)
        rw [List.drop_succ_cons] at h1
        exact h1

/-- The character before position `n`, as seen by the `\b` word-boundary
test: `prev` at the start of the search, the `n-1`-st character later. -/
def prevAt (prev : Option Char) (l : List Char) (n : Nat) : Option Char :=
  if n = 0 then prev else l[n - 1]?

theorem prevAt_zero (prev : Option Char) (l : List Char) :
    prevAt prev l 0 = prev := rfl

theorem prevAt_cons (prev : Option Char) (c : Char) (cs : List Char)
    (k : Nat) : prevAt prev (c :: cs) (k + 1) = prevAt (some c) cs k := by
  unfold prevAt
  cases k with
  | zero => simp
  | succ j => simp

theorem searchPrev_eq_iff {α : Type}
    (f : Option Char → List Char → Option α) :
    ∀ (l : List Char) (prev : Option Char) (a : α),
      searchPrev f prev l = some a ↔
        ∃ n, n ≤ l.length ∧ f (prevAt prev l n) (l.drop n) = some a ∧
          ∀ m < n, f (prevAt prev l m) (l.drop m) = none := by
  intro l
  induction l with
  | nil =>
    intro prev a
    constructor
    · intro h
      exact ⟨0, Nat.le_refl 0, h, fun m hm => absurd hm (Nat.not_lt_zero m)⟩
    · rintro ⟨n, hn, hf, -⟩
      have h0 : n = 0 := Nat.le_zero.mp hn
      subst h0
      exact hf
  | cons c cs ih =>
    intro prev a
    unfold searchPrev
    cases hf : f prev (c :: cs) with
    | some b =>
      dsimp only
      constructor
      · intro h
        injection h with h
        subst h
        exact ⟨0, Nat.zero_le _, hf, fun m hm => absurd hm (Nat.not_lt_zero m)⟩
      · rintro ⟨n, hn, hfn, hmin⟩
        cases n with
        | zero =>
          rw [List.drop_zero, prevAt_zero] at hfn
          rw [hf] at hfn
          exact hfn
        | succ k =>
          have h0 := hmin 0 (Nat.succ_pos k)
          rw [List.drop_zero, prevAt_zero, hf] at h0
          exact Option.noConfusion h0
    | none =>
      dsimp only
      constructor
      · intro h
        obtain ⟨k, hk, hfk, hmink⟩ := (ih (some c) a).mp h
        refine ⟨k + 1, Nat.succ_le_succ hk, ?_, ?_⟩
        · rw [List.drop_succ_cons, prevAt_cons]
          exact hfk
        · intro m hm
          cases m with
          | zero =>
            rw [List.drop_zero, prevAt_zero]
            exact hf
          | succ j =>
            rw [List.drop_succ_cons, prevAt_cons]
            exact hmink j (Nat.lt_of_succ_lt_succ hm)
      · rintro ⟨n, hn, hfn, hmin⟩
        cases n with
        | zero =>
          rw [List.drop_zero, prevAt_zero] at hfn
          rw [hf] at hfn
          exact Option.noConfusion hfn
        | succ k =>
          apply (ih (some c) a).mpr
          refine ⟨k, Nat.le_of_succ_le_succ hn, ?_, ?_⟩
          · rw [List.drop_succ_cons, prevAt_cons] at hfn
            exact hfn
          · intro m hm
            have h1 := hmin (m + 1) (Nat.succ_lt_succ hm)
            rw [List.drop_succ_cons, prevAt_cons] at h1
            exact h1

theorem searchPrev_none_iff {α : Type}
    (f : Option Char → List Char → Option α) :
    ∀ (l : List Char) (prev : Option Char),
      searchPrev f prev l = none ↔
        ∀ n, n ≤ l.length → f (prevAt prev l n) (l.drop n) = none := by
  intro l
  induction l with
  | nil =>
    intro prev
    constructor
    · intro h n hn
      have h0 : n = 0 := Nat.le_zero.mp hn
      subst h0
      exact h
    · intro h
      exact h 0 (Nat.le_refl 0)
  | cons c cs ih =>
    intro prev
    unfold searchPrev
    cases hf : f prev (c :: cs) with
    | some b =>
      dsimp only
      constructor
      · intro h
        exact Option.noConfusion h
      · intro h
        have h0 := h 0 (Nat.zero_le _)
        rw [List.drop_zero, prevAt_zero, hf] at h0
        exact Option.noConfusion h0
    | none =>
      dsimp only
      rw [ih (some c)]
      constructor
      · intro h n hn
        cases n with
        | zero =>
          rw [List.drop_zero, prevAt_zero]
          exact hf
        | succ j =>
          rw [List.drop_succ_cons, prevAt_cons]
          exact h j (Nat.le_of_succ_le_succ hn)
      · intro h n hn
        have h1 := h (n + 1) (Nat.succ_le_succ hn)
        rw [List.drop_succ_cons, prevAt_cons] at h1
        exact h1

/-- `f` matches at position `n` of `s` (and nowhere earlier) with capture
`a` — the leftmost-match semantics of `re.search`. -/
def SearchFirst {α : Type} (f : List Char → Option α) (s : String)
    (a : α) : Prop :=
  ∃ n, n ≤ s.toList.length ∧ f (s.toList.drop n) = some a ∧
    ∀ m < n, f (s.toList.drop m) = none

/-- `f` matches at no position of `s`. -/
def SearchNone {α : Type} (f : List Char → Option α) (s : String) : Prop :=
  ∀ n, f (s.toList.drop n) = none

/-- Leftmost match for a boundary-aware matcher. -/
def SearchPrevFirst {α : Type} (f : Option Char → List Char → Option α)
    (s : String) (a : α) : Prop :=
  ∃ n, n ≤ s.toList.length ∧
    f (prevAt none s.toList n) (s.toList.drop n) = some a ∧
    ∀ m < n, f (prevAt none s.toList m) (s.toList.drop m) = none

/-- A boundary-aware matcher matches at no position of `s`. -/
def SearchPrevNone {α : Type} (f : Option Char → List Char → Option α)
    (s : String) : Prop :=
  ∀ n, n ≤ s.toList.length →
    f (prevAt none s.toList n) (s.toList.drop n) = none

/-- C3: `parse_header` never raises (it is a total function) and returns a
record containing exactly the keys whose pattern matches somewhere in the
text, each bound to the capture of its leftmost match: each field is `none`
precisely when its matcher succeeds at no position, and is `some v`
precisely when its matcher first succeeds, with capture `v`, at some
position before which it succeeds nowhere (for `tracking`, the second
pattern is consulted exactly when the first matches nowhere). -/
theorem c3_header_extraction (text : String) :
    ((parse_header text).invoice_no = none ↔ SearchNone refAt text) ∧
    (∀ v, (parse_header text).invoice_no = some v ↔
      SearchFirst refAt text v) ∧
    ((parse_header text).purchase_date = none ↔ SearchPrevNone dateAt text) ∧
    (∀ v, (parse_header text).purchase_date = some v ↔
      SearchPrevFirst dateAt text v) ∧
    ((parse_header text).so_number = none ↔ SearchNone soAt text) ∧
    (∀ v, (parse_header text).so_number = some v ↔
      SearchFirst soAt text v) ∧
    ((parse_header text).shipment_number = none ↔
      SearchNone shipmentAt text) ∧
    (∀ v, (parse_header text).shipment_number = some v ↔
      SearchFirst shipmentAt text v) ∧
    ((parse_header text).tracking = none ↔
      (SearchNone trackAt text ∧ SearchNone trackNlAt text)) ∧
    (∀ v, (parse_header text).tracking = some v ↔
      (SearchFirst trackAt text v ∨
        (SearchNone trackAt text ∧ SearchFirst trackNlAt text v))) := by
  refine ⟨?_, ?_, ?_, ?_, ?_, ?_, ?_, ?_, ?_, ?_⟩
  · exact searchPos_none_iff refAt text.toList
  · intro v
    exact searchPos_eq_iff refAt text.toList v
  · exact searchPrev_none_iff dateAt text.toList none
  · intro v
    exact searchPrev_eq_iff dateAt text.toList none v
  · exact searchPos_none_iff soAt text.toList
  · intro v
    exact searchPos_eq_iff soAt text.toList v
  · exact searchPos_none_iff shipmentAt text.toList
  · intro v
    exact searchPos_eq_iff shipmentAt text.toList v
  · show (match findTrackA text with
      | some v => some v
      | none => findTrackB text) = none ↔ _
    cases hA : findTrackA text with
    | some w =>
      dsimp only
      constructor
      · intro h
        exact Option.noConfusion h
      · rintro ⟨hN, -⟩
        have : findTrackA text = none := (searchPos_none_iff _ _).mpr hN
        rw [hA] at this
        exact Option.noConfusion this
    | none =>
      dsimp only
      constructor
      · intro h
        exact ⟨(searchPos_none_iff _ _).mp hA, (searchPos_none_iff _ _).mp h⟩
      · rintro ⟨-, hN⟩
        exact (searchPos_none_iff _ _).mpr hN
  · intro v
    show (match findTrackA text with
      | some w => some w
      | none => findTrackB text) = some v ↔ _
    cases hA : findTrackA text with
    | some w =>
      dsimp only
      constructor
      · intro h
        injection h with h
        subst h
        exact Or.inl ((searchPos_eq_iff _ _ w).mp hA)
      · rintro (hL | ⟨hN, -⟩)
        · have h2 : findTrackA text = some v := (searchPos_eq_iff _ _ v).mpr hL
          rw [hA] at h2
          exact h2
        · have : findTrackA text = none := (searchPos_none_iff _ _).mpr hN
          rw [hA] at this
          exact Option.noConfusion this
    | none =>
      dsimp only
      constructor
      · intro h
        exact Or.inr ⟨(searchPos_none_iff _ _).mp hA, (searchPos_eq_iff _ _ v).mp h⟩
      · rintro (hL | ⟨-, hB⟩)
        · have h2 : findTrackA text = some v := (searchPos_eq_iff _ _ v).mpr hL
          rw [hA] at h2
          exact Option.noConfusion h2
        · exact (searchPos_eq_iff _ _ v).mpr hB
